import Mathlib

/-!
Verification of the textsplit repository's markup parser (`src/parser.rs`)
and per-character layout pass embedded in `split_text` (`src/lib.rs`).

Strings are modelled as `List Char`; the Rust code only searches for and
matches ASCII substrings, so byte positions and character positions agree
on every pattern the code uses.  `f32` values are modelled exactly as
rationals: the arithmetic performed by the code (addition, `max`,
multiplication by `0.5`) is modelled by the corresponding exact rational
operations.
-/

namespace TextSplit

abbrev Str := List Char

/-- Boolean prefix test on character lists (models `str::starts_with` on a
substring pattern). -/
def isPre : Str → Str → Bool
  | [], _ => true
  | _ :: _, [] => false
  | a :: pt, b :: st => if a = b then isPre pt st else false

/-- Index of the first occurrence of `pat` in `s`, models Rust `str::find`
with a substring pattern (`None` when absent). -/
def findSub (pat : Str) (s : Str) : Option Nat :=
  if isPre pat s then some 0
  else
    match s with
    | [] => none
    | _ :: t => (findSub pat t).map (· + 1)

/-- Models Rust `str::split` with a `char` separator: always returns at
least one (possibly empty) part. -/
def splitOnChar (sep : Char) : Str → List Str
  | [] => [[]]
  | c :: t =>
    if c = sep then [] :: splitOnChar sep t
    else
      match splitOnChar sep t with
      | [] => [[c]]
      | h :: r => (c :: h) :: r

/-- Numeric value of a string of decimal digits. -/
def digitsVal (s : Str) : Nat :=
  s.foldl (fun a c => 10 * a + (c.toNat - '0'.toNat)) 0

/-- Exponent suffix of a decimal float literal: empty means exponent `0`;
otherwise `e`/`E`, an optional sign and at least one digit, consuming the
whole remainder. -/
def parseExp (s : Str) : Option Int :=
  match s with
  | [] => some 0
  | c :: t =>
    if c = 'e' ∨ c = 'E' then
      let signAndRest : Bool × Str :=
        match t with
        | '-' :: r => (true, r)
        | '+' :: r => (false, r)
        | _ => (false, t)
      let ds := signAndRest.2.takeWhile Char.isDigit
      if ds = [] ∨ signAndRest.2.dropWhile Char.isDigit ≠ [] then none
      else some (if signAndRest.1 then -(digitsVal ds : Int) else (digitsVal ds : Int))
    else none

/-- Models `str::parse::<f32>` on finite decimal literals: optional sign,
then `digits ['.' digits*]` or `'.' digits`, then an optional exponent.
The value is kept exact as a rational (f32 rounding is not modelled), and
the special forms `inf`/`NaN` accepted by Rust are not modelled (no claim
settled here depends on them). -/
def parseF32 (s : Str) : Option ℚ :=
  let signAndRest : Bool × Str :=
    match s with
    | '-' :: r => (true, r)
    | '+' :: r => (false, r)
    | _ => (false, s)
  let s1 := signAndRest.2
  let ip := s1.takeWhile Char.isDigit
  let s2 := s1.dropWhile Char.isDigit
  let core : Option (ℚ × Str) :=
    match s2 with
    | '.' :: r =>
      let fp := r.takeWhile Char.isDigit
      let s3 := r.dropWhile Char.isDigit
      if ip = [] ∧ fp = [] then none
      else some ((digitsVal ip : ℚ) + (digitsVal fp : ℚ) / (10 : ℚ) ^ fp.length, s3)
    | _ => if ip = [] then none else some ((digitsVal ip : ℚ), s2)
  core.bind fun mr =>
    (parseExp mr.2).map fun e =>
      let v := mr.1 * (10 : ℚ) ^ e
      if signAndRest.1 then -v else v

/-- `TextElement` from `src/parser.rs`: one styled run. -/
structure TextElement where
  size : Option ℚ
  font : Option Str
  is_bold : Option Bool
  is_italic : Option Bool
  color : Option Str
  text : Str
deriving DecidableEq, Repr

/-- `Style` from `src/parser.rs`: the accumulated style threaded through
the fold. -/
structure Style where
  size : Option ℚ
  font : Option Str
  is_bold : Option Bool
  is_italic : Option Bool
  color : Option Str
deriving DecidableEq, Repr

def styleDefault : Style := ⟨none, none, none, none, none⟩

/-- Error kinds of the nom combinators used by the parser; all of them are
recoverable (`nom::Err::Error`) so a single inductive suffices, with
`many` for `fold_many0`'s no-progress error and `fuel` for the fuel bound
of the embedding (unreachable for the fuel `parseMarkup` passes). -/
inductive NomErr where
  | eof
  | verify
  | takeUntilFail
  | tagFail
  | charFail
  | takeWhileFail
  | many
  | fuel
deriving DecidableEq, Repr

/-- The update triple carried by a parameterized style tag. -/
abbrev StyleUpd :=
  Option (Option ℚ) × Option (Option Str) × Option (Option (Bool × Bool))

/-- `Action` from `src/parser.rs`. -/
inductive Action where
  | UpdateStyle (u : StyleUpd)
  | ResetStyle
  | UpdateColor (c : Str)
  | ResetColor
  | AppendText (t : Str)
deriving DecidableEq, Repr

/-- The `(size, font, flags)` triple computed by `parse_optional_param`
from the tag body `content`. -/
def styleUpdOf (content : Str) : StyleUpd :=
  let parts := splitOnChar ',' content
  let size : Option (Option ℚ) :=
    (parts.head?.bind fun p => if p = [] then none else some (p.drop 1)).map
      fun p => parseF32 p
  let font : Option (Option Str) :=
    parts[1]?.map fun p => if p = [] then none else some p
  let flags : Option (Option (Bool × Bool)) :=
    parts[2]?.map fun p =>
      if p = [] then none else some (p.contains 'B', p.contains 'I')
  (size, font, flags)

/-- `parse_optional_param` from `src/parser.rs`:
`delimited(char('<'), take_until(">"), char('>'))`, rejected unless the
body starts with `'s'` and is not exactly `"s"`, then split on commas into
the update triple. -/
def parseOptionalParam (s : Str) : Except NomErr (Str × StyleUpd) :=
  match s with
  | [] => .error .charFail
  | c :: s1 =>
    if c = '<' then
      match findSub ['>'] s1 with
      | none => .error .takeUntilFail
      | some i =>
        let content := s1.take i
        match s1.drop i with
        | [] => .error .charFail
        | c2 :: rest =>
          if c2 = '>' then
            if content.head? ≠ some 's' ∨ content = ['s'] then .error .verify
            else .ok (rest, styleUpdOf content)
          else .error .charFail
    else .error .charFail

/-- Rust `char::is_ascii_hexdigit`. -/
def isAsciiHexDigit (c : Char) : Bool :=
  c.isDigit || ('a' ≤ c ∧ c ≤ 'f') || ('A' ≤ c ∧ c ≤ 'F')

/-- nom `tag`: match a literal prefix. -/
def tagP (t : Str) (s : Str) : Except NomErr (Str × Str) :=
  if isPre t s then .ok (s.drop t.length, t) else .error .tagFail

/-- `parse_color` from `src/parser.rs`: `<#` then one or more ASCII hex
digits then `>`. -/
def parseColor (s : Str) : Except NomErr (Str × Str) :=
  match tagP ['<', '#'] s with
  | .error e => .error e
  | .ok (r, _) =>
    let digits := r.takeWhile isAsciiHexDigit
    if digits = [] then .error .takeWhileFail
    else
      match r.dropWhile isAsciiHexDigit with
      | [] => .error .charFail
      | c :: r3 => if c = '>' then .ok (r3, digits) else .error .charFail

def styleTrigger : Str := ['<', 's']
def colorTrigger : Str := ['<', '#']
def colorCloseTrigger : Str := ['<', '#', '>']

/-- `parse_text_until_tag` from `src/parser.rs`: fails on empty input,
otherwise takes everything up to the nearest of the three tag triggers
(a `<#` whose occurrence starts a `<#>` is ignored by the color-open
search). -/
def parseTextUntilTag (s : Str) : Except NomErr (Str × Str) :=
  if s = [] then .error .eof
  else
    let sPos := (findSub styleTrigger s).getD s.length
    let colorOpenPos :=
      match findSub colorTrigger s with
      | some i => if isPre colorCloseTrigger (s.drop i) then s.length else i
      | none => s.length
    let colorClosePos := (findSub colorCloseTrigger s).getD s.length
    let pos := min (min sPos colorOpenPos) colorClosePos
    .ok (s.drop pos, s.take pos)

/-- `parse_action` from `src/parser.rs`: `alt` over the five matchers in
source order. -/
def parseAction (s : Str) : Except NomErr (Str × Action) :=
  match parseOptionalParam s with
  | .ok (r, u) => .ok (r, .UpdateStyle u)
  | .error _ =>
    match tagP ['<', 's', '>'] s with
    | .ok (r, _) => .ok (r, .ResetStyle)
    | .error _ =>
      match parseColor s with
      | .ok (r, c) => .ok (r, .UpdateColor c)
      | .error _ =>
        match tagP colorCloseTrigger s with
        | .ok (r, _) => .ok (r, .ResetColor)
        | .error _ =>
          match parseTextUntilTag s with
          | .ok (r, t) => .ok (r, .AppendText t)
          | .error e => .error e

/-- The style half of `parse_markup`'s fold step. -/
def applyAction (st : Style) (a : Action) : Style :=
  match a with
  | .UpdateStyle u =>
    let st1 := match u.1 with
      | some s => { st with size := s }
      | none => st
    let st2 := match u.2.1 with
      | some f => { st1 with font := f }
      | none => st1
    match u.2.2 with
    | some (some bi) => { st2 with is_bold := some bi.1, is_italic := some bi.2 }
    | some none => { st2 with is_bold := none, is_italic := none }
    | none => st2
  | .ResetStyle => { st with size := none, font := none, is_bold := none, is_italic := none }
  | .UpdateColor c => { st with color := some c }
  | .ResetColor => { st with color := none }
  | .AppendText _ => st

/-- The element half of `parse_markup`'s fold step: a nonempty text span
is emitted as a run carrying a snapshot of the current style. -/
def emitElems (els : List TextElement) (st : Style) (a : Action) : List TextElement :=
  match a with
  | .AppendText t =>
    if t = [] then els
    else els ++ [⟨st.size, st.font, st.is_bold, st.is_italic, st.color, t⟩]
  | _ => els

/-- One fold step of `parse_markup`. -/
def foldStep (acc : List TextElement × Style) (a : Action) : List TextElement × Style :=
  (emitElems acc.1 acc.2 a, applyAction acc.2 a)

/-- Error type of `parse_markup`: either an error from the `fold_many0`
run itself, or the "Unparsed input remaining" branch. -/
inductive ParseErr where
  | fromFold (e : NomErr)
  | unparsedRemaining (rem : Str)
deriving DecidableEq, Repr

/-- nom's `fold_many0` over `parse_action`: stops (successfully) when the
inner parser errors, errors with `many` when the inner parser succeeds
without consuming input.  The fuel argument only bounds the recursion;
`parseMarkup` passes enough fuel that it is never exhausted. -/
def foldAux : Nat → Str → (List TextElement × Style) →
    Except NomErr (Str × (List TextElement × Style))
  | 0, _, _ => .error .fuel
  | n + 1, s, acc =>
    match parseAction s with
    | .error _ => .ok (s, acc)
    | .ok (r, a) =>
      if r.length = s.length then .error .many
      else foldAux n r (foldStep acc a)

/-- `parse_markup` from `src/parser.rs`. -/
def parseMarkup (s : Str) : Except ParseErr (List TextElement) :=
  match foldAux (s.length + 1) s ([], styleDefault) with
  | .error e => .error (.fromFold e)
  | .ok (rem, acc) => if rem = [] then .ok acc.1 else .error (.unparsedRemaining rem)

/-! ## Layout (`split_text` in `src/lib.rs`, lines 90-176) -/

/-- `HDir` from `src/parser/alignment.rs`. -/
inductive HDir where
  | Left
  | Mid
  | Right
deriving DecidableEq, Repr

/-- `VDir` from `src/parser/alignment.rs`. -/
inductive VDir where
  | Top
  | Center
  | Bottom
deriving DecidableEq, Repr

/-- `TextAlignment` from `src/parser/alignment.rs`. -/
structure TextAlignment where
  hdir : HDir
  vdir : VDir
  is_vert : Bool
deriving DecidableEq, Repr

/-- The block-level inputs `split_text` reads from the host item before
laying out: base size `_size`, kerning, line spacing, anchor `(_x, _y)`,
alignment, and the host defaults substituted for unset run attributes
(font, color, and the bold/italic strings of the original item). -/
structure LayoutParams where
  base : ℚ
  kern : ℚ
  lnsp : ℚ
  ax : ℚ
  ay : ℚ
  align : TextAlignment
  fontD : Str
  colorD : Str
  boldD : Str
  italicD : Str
deriving DecidableEq, Repr

/-- One emitted character: the fields of the alias `split_text` fills in
for each created object that vary per character (constant host pass-through
fields such as shadow color and blend mode are omitted). -/
structure Placement where
  ch : Char
  size : ℚ
  font : Str
  color : Str
  boldS : Str
  italicS : Str
  x : ℚ
  y : ℚ
  layer : Nat
deriving DecidableEq, Repr

/-- The four mutable measurement variables of pass 1 (`w`, `w_temp`, `h`,
`h_temp`). -/
structure MeasureState where
  w : ℚ
  wTemp : ℚ
  h : ℚ
  hTemp : ℚ
deriving DecidableEq, Repr

/-- The literal two-character newline escape `"\\n"`. -/
def newlineEsc : Str := ['\\', 'n']

/-- One iteration of the pass-1 loop (`src/lib.rs` lines 94-105): note the
loop runs once per run (`for el in elements`), adding `size + kern` to
`w_temp` once per run, and recognizes a break only when the run's whole
text equals the escape. -/
def measureStep (p : LayoutParams) (st : MeasureState) (el : TextElement) : MeasureState :=
  if el.text = newlineEsc then
    ⟨max st.w st.wTemp, 0, st.h + st.hTemp + p.lnsp, 0⟩
  else
    let size := el.size.getD p.base
    ⟨st.w, st.wTemp + size + p.kern, st.h, max st.hTemp size⟩

/-- Pass 1 over the whole run list; the loop ends with no further folding
of `w_temp`/`h_temp` into `w`/`h` (`src/lib.rs` goes straight from the
loop to the alignment `match`). -/
def measurePass (p : LayoutParams) (els : List TextElement) : MeasureState :=
  els.foldl (measureStep p) ⟨0, 0, 0, 0⟩

/-- The alignment `match` on `w` (`src/lib.rs` lines 107-115): the value
`w` holds afterwards, i.e. the horizontal anchor offset. -/
def hAnchorOffset (d : HDir) (w : ℚ) : ℚ :=
  match d with
  | .Left => 0
  | .Mid => w * (1 / 2)
  | .Right => w

/-- The alignment `match` on `h` (`src/lib.rs` lines 117-125): the
vertical anchor offset. -/
def vAnchorOffset (d : VDir) (h : ℚ) : ℚ :=
  match d with
  | .Top => 0
  | .Center => h * (1 / 2)
  | .Bottom => h

/-- The pass-2 pen origin `(x, y) = (_x - w, _y - h)` computed from the
measured extents after the alignment matches. -/
def penOrigin (p : LayoutParams) (w h : ℚ) : ℚ × ℚ :=
  (p.ax - hAnchorOffset p.align.hdir w, p.ay - vAnchorOffset p.align.vdir h)

/-- Pen state of pass 2: current position and next target layer. -/
structure PenState where
  x : ℚ
  y : ℚ
  layer : Nat
deriving DecidableEq, Repr

/-- Emission of one character (`src/lib.rs` lines 138-174): resolved style
falls back from the run override to the block default, then the pen
advances by `size + kern` and the layer by one. -/
def emitChar (p : LayoutParams) (el : TextElement) (st : PenState) (c : Char) :
    PenState × Placement :=
  let size := el.size.getD p.base
  (⟨st.x + size + p.kern, st.y, st.layer + 1⟩,
   ⟨c, size, el.font.getD p.fontD, el.color.getD p.colorD,
    (el.is_bold.map fun b => if b then ['1'] else ['0']).getD p.boldD,
    (el.is_italic.map fun b => if b then ['1'] else ['0']).getD p.italicD,
    st.x, st.y, st.layer⟩)

/-- The inner `for c in el.text.chars()` loop of pass 2. -/
def emitChars (p : LayoutParams) (el : TextElement) :
    PenState → Str → PenState × List Placement
  | st, [] => (st, [])
  | st, c :: cs =>
    let first := emitChar p el st c
    let rest := emitChars p el first.1 cs
    (rest.1, first.2 :: rest.2)

/-- One iteration of the pass-2 run loop (`src/lib.rs` lines 132-176):
a run whose whole text equals the newline escape resets the pen to the
line start `x0` and advances `y` by `_size + lnsp`, emitting nothing;
any other run is expanded character by character. -/
def emitRun (p : LayoutParams) (x0 : ℚ) (st : PenState) (el : TextElement) :
    PenState × List Placement :=
  if el.text = newlineEsc then (⟨x0, st.y + p.base + p.lnsp, st.layer⟩, [])
  else emitChars p el st el.text

/-- Pass 2 over the whole run list. -/
def emitRuns (p : LayoutParams) (x0 : ℚ) : PenState → List TextElement → List Placement
  | _, [] => []
  | st, el :: rest =>
    let first := emitRun p x0 st el
    first.2 ++ emitRuns p x0 first.1 rest

/-- The layout core of `split_text`: measure (pass 1), derive the pen
origin from the anchor and the alignment offsets, then emit placements
(pass 2) starting at layer `layer0 + 1`. -/
def splitText (p : LayoutParams) (els : List TextElement) (layer0 : Nat) : List Placement :=
  let m := measurePass p els
  let o := penOrigin p m.w m.h
  emitRuns p o.1 ⟨o.1, o.2, layer0 + 1⟩ els

/-- Modelled from the spec: the pass-1 character step of §4.2 ("On a
character: advance `w_temp` by `resolved_size + kerning`; update `h_temp`
to the max of itself and `resolved_size`"), advancing once per character
of a run's text. -/
def measureStepSpecModel (p : LayoutParams) (st : MeasureState) (el : TextElement) :
    MeasureState :=
  if el.text = newlineEsc then
    ⟨max st.w st.wTemp, 0, st.h + st.hTemp + p.lnsp, 0⟩
  else
    el.text.foldl
      (fun m _ =>
        let size := el.size.getD p.base
        ⟨m.w, m.wTemp + size + p.kern, m.h, max m.hTemp size⟩)
      st

/-- Modelled from the spec: pass 1 of §4.2 with the per-character advance. -/
def measurePassSpecModel (p : LayoutParams) (els : List TextElement) : MeasureState :=
  els.foldl (measureStepSpecModel p) ⟨0, 0, 0, 0⟩

/-- Modelled from the spec: "After the scan, fold the last line's
temporaries into `w`/`h`" — `w_temp` into `w` via max, `h_temp` into `h`. -/
def foldTrailingSpecModel (st : MeasureState) : ℚ × ℚ :=
  (max st.w st.wTemp, st.h + st.hTemp)

/-! ## Concrete inputs used by the closed theorems and witnesses -/

/-- Block parameters: base size 10, kerning 0, line spacing 5, anchor
(0, 0), Left/Top alignment, host defaults `f`, `c`, `0`, `0`. -/
def blockLT : LayoutParams :=
  ⟨10, 0, 5, 0, 0, ⟨.Left, .Top, false⟩, ['f'], ['c'], ['0'], ['0']⟩

/-- Block parameters: base size 10, kerning 0, line spacing 0, anchor
(0, 0), Right/Bottom alignment, host defaults `f`, `c`, `0`, `0`. -/
def blockRB : LayoutParams :=
  ⟨10, 0, 0, 0, 0, ⟨.Right, .Bottom, false⟩, ['f'], ['c'], ['0'], ['0']⟩

/-- A single unstyled run with text `AB`. -/
def elAB : TextElement := ⟨none, none, none, none, none, ['A', 'B']⟩

/-- A single unstyled run with text `a\nb`: the newline escape occurs
embedded inside longer run text. -/
def elEmbedded : TextElement := ⟨none, none, none, none, none, ['a', '\\', 'n', 'b']⟩

/-- A run whose whole text is the newline escape. -/
def elBreak : TextElement := ⟨none, none, none, none, none, newlineEsc⟩

/-! ## Theorems -/

/-- C1: pass 1 is claimed to advance `w_temp` by `resolved_size + kerning`
once per character; the code's loop runs once per run.  For the single run
`AB` (resolved size 10, kerning 0) the code's pass 1 leaves `w_temp = 10`
(one advance for the whole run), while the per-character pass 1 modelled
from the spec yields `w_temp = 20`. -/
theorem c1_pass1_advances_once_per_run :
    (measurePass blockLT [elAB]).wTemp = 10 ∧
      (measurePassSpecModel blockLT [elAB]).wTemp = 20 := by
  constructor
  · simp +decide [measurePass, measureStep, blockLT, elAB, newlineEsc]
  · simp +decide [measurePassSpecModel, measureStepSpecModel, blockLT, elAB,
      newlineEsc]
    norm_num

/-- C2: the claim says pass 1 folds the last line's temporaries into
`w`/`h` after the scan.  The code does not: for the single run `AB` with
no trailing break under Right/Bottom alignment, pass 1 ends with `w = 0`
although `w_temp = 10` (the spec-modelled trailing fold would give
`(w, h) = (10, 10)`), so the emitted placements start at the unshifted
anchor `x = 0` instead of `x = -10`. -/
theorem c2_no_trailing_fold_after_scan :
    (measurePass blockRB [elAB]).w = 0 ∧
      (measurePass blockRB [elAB]).wTemp = 10 ∧
      foldTrailingSpecModel (measurePass blockRB [elAB]) = (10, 10) ∧
      splitText blockRB [elAB] 0 =
        [⟨'A', 10, ['f'], ['c'], ['0'], ['0'], 0, 0, 1⟩,
         ⟨'B', 10, ['f'], ['c'], ['0'], ['0'], 10, 0, 2⟩] := by
  refine ⟨?_, ?_, ?_, ?_⟩ <;>
    simp +decide [splitText, measurePass, measureStep, foldTrailingSpecModel,
      penOrigin, hAnchorOffset, vAnchorOffset, emitRuns, emitRun, emitChars,
      emitChar, blockRB, elAB, newlineEsc]

/-- C5: the claim says every occurrence of the newline escape inside a
run's text acts as a break unit and is never split into two characters.
The code treats a run as a break only when its whole text equals the
escape: for the run `a\nb` (escape embedded) the characters `\` and `n`
are emitted as two ordinary placements at x = 10 and x = 20 on the same
line, while a run whose whole text is the escape does get break handling
(pen x reset to the line start, y advanced by `base + lnsp`, nothing
emitted). -/
theorem c5_embedded_escape_split_into_chars :
    splitText blockLT [elEmbedded] 0 =
        [⟨'a', 10, ['f'], ['c'], ['0'], ['0'], 0, 0, 1⟩,
         ⟨'\\', 10, ['f'], ['c'], ['0'], ['0'], 10, 0, 2⟩,
         ⟨'n', 10, ['f'], ['c'], ['0'], ['0'], 20, 0, 3⟩,
         ⟨'b', 10, ['f'], ['c'], ['0'], ['0'], 30, 0, 4⟩] ∧
      emitRun blockLT 0 ⟨0, 0, 1⟩ elBreak = (⟨0, 15, 1⟩, []) := by
  constructor <;>
    simp +decide [splitText, measurePass, measureStep, penOrigin, hAnchorOffset,
      vAnchorOffset, emitRuns, emitRun, emitChars, emitChar, blockLT,
      elEmbedded, elBreak, newlineEsc] <;>
    norm_num

/-- C3 counterexamples: two tag-free inputs falsify the claim as stated.
The empty input contains no tags, yet `parse` returns `Ok` with zero runs,
not exactly one; and the input `a<s` contains no complete tag, yet `parse`
returns an error (after the text span `a`, every matcher fails at the
dangling trigger `<s` except the text matcher, which consumes nothing, so
`fold_many0` aborts with its no-progress error). -/
theorem c3_no_tags_counterexample :
    (parseMarkup [] = .ok [] ∧
      (parseMarkup ([] : Str)).toOption.map List.length ≠ some 1) ∧
      parseMarkup ['a', '<', 's'] = .error (.fromFold .many) := by
  refine ⟨⟨rfl, by decide⟩, rfl⟩

/-- C7: the bare tag `<s>` parses to the reset-style action, which clears
size, font, bold and italic and leaves color unchanged; the tag `<#>`
parses to the reset-color action, which clears only color. -/
theorem c7_bare_resets_are_independent (rest : Str) (st : Style) :
    parseAction ('<' :: 's' :: '>' :: rest) = .ok (rest, .ResetStyle) ∧
      parseAction ('<' :: '#' :: '>' :: rest) = .ok (rest, .ResetColor) ∧
      applyAction st .ResetStyle = ⟨none, none, none, none, st.color⟩ ∧
      applyAction st .ResetColor = ⟨st.size, st.font, st.is_bold, st.is_italic, none⟩ := by
  refine ⟨?_, ?_, rfl, rfl⟩
  · simp +decide [parseAction, parseOptionalParam, findSub, isPre, tagP,
      colorCloseTrigger]
  · simp +decide [parseAction, parseOptionalParam, findSub, isPre, tagP,
      parseColor, isAsciiHexDigit, colorCloseTrigger]

/-- C8: the horizontal anchor offset is 0 / `W * 0.5` / `W` for
Left / Mid / Right, the vertical anchor offset is 0 / `H * 0.5` / `H` for
Top / Center / Bottom, and pass 2 starts its pen at the block anchor minus
the two offsets: the first emitted placement of a block whose first run is
a nonempty non-break run sits exactly at that origin. -/
theorem c8_anchor_offsets (W H : ℚ) (p : LayoutParams) (el0 : TextElement)
    (els : List TextElement) (layer0 : Nat) (c : Char) (cs : Str)
    (h1 : el0.text = c :: cs) (h2 : el0.text ≠ newlineEsc) :
    hAnchorOffset .Left W = 0 ∧ hAnchorOffset .Mid W = W * (1 / 2) ∧
      hAnchorOffset .Right W = W ∧ vAnchorOffset .Top H = 0 ∧
      vAnchorOffset .Center H = H * (1 / 2) ∧ vAnchorOffset .Bottom H = H ∧
      (splitText p (el0 :: els) layer0).head?.map (fun pl => (pl.x, pl.y)) =
        some (penOrigin p (measurePass p (el0 :: els)).w
          (measurePass p (el0 :: els)).h) := by
  refine ⟨rfl, rfl, rfl, rfl, rfl, rfl, ?_⟩
  have h3 : ¬(c :: cs = newlineEsc) := h1 ▸ h2
  simp [splitText, emitRuns, emitRun, h1, h3, emitChars, emitChar]

theorem findSub_none_not_pre {pat s : Str} (h : findSub pat s = none) :
    isPre pat s = false := by
  by_cases hp : isPre pat s
  · cases s <;> rw [findSub, if_pos hp] at h <;> cases h
  · simpa using hp

theorem findSub_none_tail {pat : Str} {c : Char} {t : Str}
    (h : findSub pat (c :: t) = none) : findSub pat t = none := by
  rw [findSub] at h
  by_cases hp : isPre pat (c :: t)
  · rw [if_pos hp] at h; cases h
  · rw [if_neg hp] at h
    exact Option.map_eq_none'.mp h

theorem findSub_drop_pre {pat s : Str} :
    ∀ {i : Nat}, findSub pat s = some i → isPre pat (s.drop i) = true := by
  induction s with
  | nil =>
    intro i h
    rw [findSub] at h
    by_cases hp : isPre pat []
    · rw [if_pos hp] at h; cases h; simpa using hp
    · rw [if_neg hp] at h; cases h
  | cons c t ih =>
    intro i h
    rw [findSub] at h
    by_cases hp : isPre pat (c :: t)
    · rw [if_pos hp] at h; cases h; simpa using hp
    · rw [if_neg hp] at h
      rcases Option.map_eq_some'.mp h with ⟨j, hj, hji⟩
      subst hji
      simpa using ih hj

theorem isPre_append_left {p q s : Str} (h : isPre (p ++ q) s = true) :
    isPre p s = true := by
  induction p generalizing s with
  | nil => simp [isPre]
  | cons a t ih =>
    cases s with
    | nil => simp [isPre] at h
    | cons b r =>
      rw [List.cons_append, isPre] at h
      rw [isPre]
      by_cases hab : a = b
      · rw [if_pos hab] at h ⊢; exact ih h
      · rw [if_neg hab] at h; cases h

theorem findSub_append_pat_none {p q s : Str} (h : findSub p s = none) :
    findSub (p ++ q) s = none := by
  induction s with
  | nil =>
    rw [findSub]
    rw [if_neg]
    intro hp
    exact absurd (isPre_append_left hp) (by simp [findSub_none_not_pre h])
  | cons c t ih =>
    rw [findSub]
    rw [if_neg ?_]
    · rw [ih (findSub_none_tail h)]; rfl
    · intro hp
      exact absurd (isPre_append_left hp) (by simp [findSub_none_not_pre h])

theorem findSub_lt_none {p s : Str} (h : '<' ∉ s) :
    findSub ('<' :: p) s = none := by
  induction s with
  | nil => rfl
  | cons c t ih =>
    have hc : ('<' : Char) ≠ c := fun e => h (List.mem_cons.mpr (Or.inl e))
    have ht : '<' ∉ t := fun m => h (List.mem_cons_of_mem _ m)
    rw [findSub, if_neg ?_]
    · rw [ih ht]; rfl
    · rw [isPre, if_neg hc]; simp

theorem findSub_append_none {p pre s : Str} (h1 : '<' ∉ pre)
    (h2 : findSub ('<' :: p) s = none) : findSub ('<' :: p) (pre ++ s) = none := by
  induction pre with
  | nil => simpa using h2
  | cons c t ih =>
    have hc : ('<' : Char) ≠ c := fun e => h1 (List.mem_cons.mpr (Or.inl e))
    have ht : '<' ∉ t := fun m => h1 (List.mem_cons_of_mem _ m)
    rw [List.cons_append, findSub, if_neg ?_]
    · rw [ih ht]; rfl
    · rw [isPre, if_neg hc]; simp

theorem findSub_opener_none {x : Char} {body post : Str} (hx : x ≠ '>')
    (hb : '<' ∉ body) (hp : '<' ∉ post) (hh : body.head? ≠ some x) :
    findSub ['<', x] ('<' :: (body ++ '>' :: post)) = none := by
  have hgt : findSub ['<', x] ('>' :: post) = none := by
    rw [findSub, if_neg ?_]
    · rw [findSub_lt_none hp]; rfl
    · rw [isPre, if_neg (by decide)]; simp
  rw [findSub, if_neg ?_]
  · rw [findSub_append_none hb hgt]; rfl
  · rw [isPre, if_pos rfl]
    cases body with
    | nil =>
      rw [List.nil_append, isPre, if_neg hx]
      simp
    | cons b bt =>
      have hbx : x ≠ b := fun e => hh (by rw [e]; rfl)
      rw [List.cons_append, isPre, if_neg hbx]
      simp

theorem findSub_sentinel {body rest : Str} (h : '>' ∉ body) :
    findSub ['>'] (body ++ '>' :: rest) = some body.length := by
  induction body with
  | nil =>
    rw [List.nil_append, findSub, if_pos ?_]
    · rfl
    · rw [isPre, if_pos rfl]; rfl
  | cons c t ih =>
    have hc : ('>' : Char) ≠ c := fun e => h (List.mem_cons.mpr (Or.inl e))
    have ht : '>' ∉ t := fun m => h (List.mem_cons_of_mem _ m)
    rw [List.cons_append, findSub, if_neg ?_]
    · rw [ih ht]; rfl
    · rw [isPre, if_neg hc]; simp

theorem splitOnChar_ne_nil {sep : Char} {s : Str} : splitOnChar sep s ≠ [] := by
  cases s with
  | nil => simp [splitOnChar]
  | cons c t =>
    rw [splitOnChar]
    by_cases hc : c = sep
    · rw [if_pos hc]; simp
    · rw [if_neg hc]
      cases h : splitOnChar sep t with
      | nil => simp
      | cons a l => simp

theorem splitOnChar_single {sep : Char} {s : Str} (h : sep ∉ s) :
    splitOnChar sep s = [s] := by
  induction s with
  | nil => rfl
  | cons c t ih =>
    have hc : c ≠ sep := fun e => h (List.mem_cons.mpr (Or.inl e.symm))
    have ht : sep ∉ t := fun m => h (List.mem_cons_of_mem _ m)
    rw [splitOnChar, if_neg hc, ih ht]

theorem parseOptionalParam_err_of_noStyle {s : Str}
    (hs : findSub styleTrigger s = none) : ∃ e, parseOptionalParam s = .error e := by
  cases s with
  | nil => exact ⟨.charFail, rfl⟩
  | cons c s1 =>
    by_cases hc : c = '<'
    · subst hc
      have hpre : isPre styleTrigger ('<' :: s1) = false := findSub_none_not_pre hs
      have hhead : s1.head? ≠ some 's' := by
        intro hh
        cases s1 with
        | nil => simp at hh
        | cons a t =>
          rw [List.head?_cons, Option.some_inj] at hh
          subst hh
          rw [styleTrigger, isPre, if_pos rfl, isPre, if_pos rfl] at hpre
          simp [isPre] at hpre
      cases hfind : findSub ['>'] s1 with
      | none => exact ⟨.takeUntilFail, by simp [parseOptionalParam, hfind]⟩
      | some i =>
        have hdrop := findSub_drop_pre hfind
        obtain ⟨r, hr⟩ : ∃ r, s1.drop i = '>' :: r := by
          cases hd : s1.drop i with
          | nil => rw [hd] at hdrop; simp [isPre] at hdrop
          | cons a l =>
            rw [hd, isPre] at hdrop
            by_cases ha : ('>' : Char) = a
            · exact ⟨l, by rw [ha]⟩
            · rw [if_neg ha] at hdrop; cases hdrop
        have hcontent : (s1.take i).head? ≠ some 's' := by
          cases i with
          | zero => simp
          | succ j =>
            cases s1 with
            | nil => simp
            | cons a t => simpa using hhead
        refine ⟨.verify, ?_⟩
        simp [parseOptionalParam, hfind, hr, hcontent]
    · exact ⟨.charFail, by simp [parseOptionalParam, hc]⟩

theorem parseColor_err_of_noColor {s : Str}
    (hh : findSub colorTrigger s = none) : ∃ e, parseColor s = .error e := by
  have h0 : isPre colorTrigger s = false := findSub_none_not_pre hh
  simp only [colorTrigger] at h0
  exact ⟨.tagFail, by simp [parseColor, tagP, h0]⟩

theorem tagReset_err_of_noStyle {s : Str}
    (hs : findSub styleTrigger s = none) : tagP ['<', 's', '>'] s = .error .tagFail := by
  have h0 : isPre styleTrigger s = false := findSub_none_not_pre hs
  simp only [styleTrigger] at h0
  rw [tagP, if_neg]
  intro hp
  have h1 := isPre_append_left (p := ['<', 's']) (q := ['>']) hp
  rw [h0] at h1
  cases h1

theorem tagClose_err_of_noColor {s : Str}
    (hh : findSub colorTrigger s = none) : tagP colorCloseTrigger s = .error .tagFail := by
  have h0 : isPre colorTrigger s = false := findSub_none_not_pre hh
  simp only [colorTrigger] at h0
  rw [tagP, if_neg]
  intro hp
  have h1 := isPre_append_left (p := ['<', '#']) (q := ['>']) hp
  rw [h0] at h1
  cases h1

theorem findSub_close_none {s : Str} (h : findSub colorTrigger s = none) :
    findSub colorCloseTrigger s = none :=
  findSub_append_pat_none (q := ['>']) h

theorem parseTextUntilTag_noTrig {s : Str} (hne : s ≠ [])
    (hs : findSub styleTrigger s = none) (hh : findSub colorTrigger s = none) :
    parseTextUntilTag s = .ok ([], s) := by
  have hc := findSub_close_none hh
  rw [parseTextUntilTag, if_neg hne]
  simp [hs, hh, hc, List.take_length, List.drop_length]

theorem parseAction_noTrig {s : Str} (hne : s ≠ [])
    (hs : findSub styleTrigger s = none) (hh : findSub colorTrigger s = none) :
    parseAction s = .ok ([], .AppendText s) := by
  obtain ⟨e1, h1⟩ := parseOptionalParam_err_of_noStyle hs
  obtain ⟨e3, h3⟩ := parseColor_err_of_noColor hh
  rw [parseAction, h1, tagReset_err_of_noStyle hs, h3, tagClose_err_of_noColor hh,
    parseTextUntilTag_noTrig hne hs hh]

theorem parseAction_nil : parseAction [] = .error .eof := rfl

theorem parseAction_ok_of_ne {s : Str} (hne : s ≠ []) :
    ∃ r a, parseAction s = .ok (r, a) := by
  rw [parseAction]
  cases h1 : parseOptionalParam s with
  | ok v => exact ⟨v.1, .UpdateStyle v.2, rfl⟩
  | error e1 =>
    cases h2 : tagP ['<', 's', '>'] s with
    | ok v => exact ⟨v.1, .ResetStyle, rfl⟩
    | error e2 =>
      cases h3 : parseColor s with
      | ok v => exact ⟨v.1, .UpdateColor v.2, rfl⟩
      | error e3 =>
        cases h4 : tagP colorCloseTrigger s with
        | ok v => exact ⟨v.1, .ResetColor, rfl⟩
        | error e4 =>
          rw [parseTextUntilTag, if_neg hne]
          exact ⟨_, _, rfl⟩

theorem foldAux_nil (n : Nat) (acc : List TextElement × Style) :
    foldAux (n + 1) [] acc = .ok ([], acc) := by
  rw [foldAux, parseAction_nil]

theorem foldAux_rem_nil {n : Nat} {s : Str} {acc racc : List TextElement × Style}
    {rem : Str} (h : foldAux n s acc = .ok (rem, racc)) : rem = [] := by
  induction n generalizing s acc with
  | zero => rw [foldAux] at h; cases h
  | succ n ih =>
    rw [foldAux] at h
    cases hA : parseAction s with
    | error e =>
      rw [hA] at h
      have hs : s = [] := by
        by_contra hne
        obtain ⟨r, a, hra⟩ := parseAction_ok_of_ne hne
        rw [hra] at hA
        cases hA
      cases h
      exact hs
    | ok ra =>
      obtain ⟨r, a⟩ := ra
      rw [hA] at h
      dsimp only at h
      by_cases hlen : r.length = s.length
      · rw [if_pos hlen] at h; cases h
      · rw [if_neg hlen] at h; exact ih h

theorem foldAux_noTrig {s : Str} (els : List TextElement) (st : Style)
    (hne : s ≠ []) (hs : findSub styleTrigger s = none)
    (hh : findSub colorTrigger s = none) {n : Nat} (hn : 2 ≤ n) :
    foldAux n s (els, st) =
      .ok ([], (els ++ [⟨st.size, st.font, st.is_bold, st.is_italic, st.color, s⟩], st)) := by
  obtain ⟨m, rfl⟩ : ∃ m, n = m + 1 + 1 := ⟨n - 2, by omega⟩
  rw [foldAux, parseAction_noTrig hne hs hh]
  dsimp only
  have hlen : ([] : Str).length ≠ s.length := by
    intro h0
    exact hne (List.length_eq_zero.mp h0.symm)
  rw [if_neg hlen, foldAux_nil]
  simp [foldStep, emitElems, applyAction, hne]

theorem parseMarkup_noTrig {s : Str} (hne : s ≠ [])
    (hs : findSub styleTrigger s = none) (hh : findSub colorTrigger s = none) :
    parseMarkup s = .ok [⟨none, none, none, none, none, s⟩] := by
  have h1 : 1 ≤ s.length := by
    cases s with
    | nil => exact absurd rfl hne
    | cons a t => simp
  rw [parseMarkup, foldAux_noTrig [] styleDefault hne hs hh (by omega)]
  simp [styleDefault]

/-- C3 (amended): for every nonempty input containing neither of the tag
openers `<s` and `<#`, parse returns Ok with exactly one run whose text is
the whole input and whose five style fields are all None.  Both
restrictions are forced by `c3_no_tags_counterexample`: the empty input
yields zero runs, and an input with a dangling trigger such as `a<s`
(tag-free, but containing `<s`) makes the parse fail outright. -/
theorem c3_no_tags_single_run (s : Str) (h1 : s ≠ [])
    (h2 : findSub styleTrigger s = none) (h3 : findSub colorTrigger s = none) :
    parseMarkup s = .ok [⟨none, none, none, none, none, s⟩] :=
  parseMarkup_noTrig h1 h2 h3

/-- Witness for C3 on the concrete input `hi`. -/
theorem c3_no_tags_single_run_witness :
    (['h', 'i'] : Str) ≠ [] ∧ findSub styleTrigger ['h', 'i'] = none ∧
      findSub colorTrigger ['h', 'i'] = none ∧
      parseMarkup ['h', 'i'] = .ok [⟨none, none, none, none, none, ['h', 'i']⟩] :=
  ⟨by decide, by decide, by decide,
    c3_no_tags_single_run ['h', 'i'] (by decide) (by decide) (by decide)⟩

/-- C4 counterexamples: a tag-like substring that matches neither the
style-tag nor the color-tag grammar but begins with a tag trigger is NOT
absorbed into literal text.  In `a<#zz>b` the substring `<#zz>` matches
neither grammar (`z` is not a hex digit), yet it terminates the text span
at the `<#` trigger and the whole parse fails with the fold's no-progress
error; in `a<strong>b` the substring `<strong>` does not match the
documented style grammar, yet it is consumed by the parameterized style
matcher and appears in no run's text (two runs `a` and `b`), instead of
being absorbed verbatim. -/
theorem c4_trigger_headed_tag_counterexample :
    parseMarkup ['a', '<', '#', 'z', 'z', '>', 'b'] = .error (.fromFold .many) ∧
      parseMarkup ['a', '<', 's', 't', 'r', 'o', 'n', 'g', '>', 'b'] =
        .ok [⟨none, none, none, none, none, ['a']⟩,
          ⟨none, none, none, none, none, ['b']⟩] := by
  exact ⟨rfl, rfl⟩

/-- C4 (amended): a tag-like substring `<BODY>` whose body begins with
neither the style marker `s` nor the color marker `#` is absorbed verbatim
into the surrounding literal text: the whole input parses as one run equal
to the input itself, so such an unrecognized tag neither terminates the
text span nor causes parse to fail.  The head restrictions are forced by
`c4_trigger_headed_tag_counterexample`: a `#`-headed body can fail the
whole parse, an `s`-headed body is consumed as a style action. -/
theorem c4_unrecognized_tag_absorbed (pre body post : Str)
    (h1 : '<' ∉ pre) (h2 : '<' ∉ body) (h3 : '<' ∉ post)
    (h4 : body.head? ≠ some 's') (h5 : body.head? ≠ some '#') :
    parseMarkup (pre ++ '<' :: (body ++ '>' :: post)) =
      .ok [⟨none, none, none, none, none, pre ++ '<' :: (body ++ '>' :: post)⟩] := by
  have hS : findSub styleTrigger (pre ++ '<' :: (body ++ '>' :: post)) = none := by
    rw [styleTrigger]
    exact findSub_append_none h1 (findSub_opener_none (by decide) h2 h3 h4)
  have hC : findSub colorTrigger (pre ++ '<' :: (body ++ '>' :: post)) = none := by
    rw [colorTrigger]
    exact findSub_append_none h1 (findSub_opener_none (by decide) h2 h3 h5)
  have hne : pre ++ '<' :: (body ++ '>' :: post) ≠ [] := by
    intro h0
    have := congrArg List.length h0
    simp at this
  exact parseMarkup_noTrig hne hS hC

/-- Witness for C4 on the concrete input `a<other>b`. -/
theorem c4_unrecognized_tag_absorbed_witness :
    '<' ∉ (['a'] : Str) ∧ '<' ∉ (['o', 't', 'h', 'e', 'r'] : Str) ∧
      '<' ∉ (['b'] : Str) ∧
      (['o', 't', 'h', 'e', 'r'] : Str).head? ≠ some 's' ∧
      (['o', 't', 'h', 'e', 'r'] : Str).head? ≠ some '#' ∧
      parseMarkup ['a', '<', 'o', 't', 'h', 'e', 'r', '>', 'b'] =
        .ok [⟨none, none, none, none, none,
          ['a', '<', 'o', 't', 'h', 'e', 'r', '>', 'b']⟩] :=
  ⟨by decide, by decide, by decide, by decide, by decide,
    c4_unrecognized_tag_absorbed ['a'] ['o', 't', 'h', 'e', 'r'] ['b']
      (by decide) (by decide) (by decide) (by decide) (by decide)⟩

/-- C10: the literal-text matcher fails exactly on empty input, and as a
consequence whenever the fold over actions succeeds the remaining input is
empty, so `parse_markup` can never return the "Unparsed input remaining"
error: every error it returns originates from the combinator run itself. -/
theorem c10_unparsed_branch_unreachable (s rem : Str) :
    (parseTextUntilTag s = .error .eof ↔ s = []) ∧
      parseMarkup s ≠ .error (.unparsedRemaining rem) := by
  constructor
  · constructor
    · intro h
      by_contra hne
      rw [parseTextUntilTag, if_neg hne] at h
      cases h
    · intro h
      subst h
      rfl
  · intro h
    rw [parseMarkup] at h
    cases hF : foldAux (s.length + 1) s ([], styleDefault) with
    | error e => rw [hF] at h; cases h
    | ok p =>
      obtain ⟨rem', acc⟩ := p
      rw [hF] at h
      rw [foldAux_rem_nil hF] at h
      dsimp only at h
      cases h

theorem parseOptionalParam_body {body tail : Str} (hhd : body.head? = some 's')
    (hne : body ≠ ['s']) (hgt : '>' ∉ body) :
    parseOptionalParam ('<' :: (body ++ '>' :: tail)) = .ok (tail, styleUpdOf body) := by
  have hfind : findSub ['>'] (body ++ '>' :: tail) = some body.length :=
    findSub_sentinel hgt
  have htake : (body ++ '>' :: tail).take body.length = body := by simp
  have hdrop : (body ++ '>' :: tail).drop body.length = '>' :: tail := by simp
  simp [parseOptionalParam, hfind, htake, hdrop, hhd, hne]

/-- C6: a parameterized style tag `<sJUNK>` whose size sub-token `JUNK`
fails float parsing does not abort the parse: the whole input still parses,
no error is propagated, and the size token resolves to absent (the
accumulated size becomes None), so the following text is a run with size
None. -/
theorem c6_malformed_size_recovered (junk txt : Str) (h1 : junk ≠ [])
    (h2 : '>' ∉ junk) (h3 : ',' ∉ junk) (h4 : parseF32 junk = none)
    (h5 : txt ≠ []) (h6 : findSub styleTrigger txt = none)
    (h7 : findSub colorTrigger txt = none) :
    parseMarkup ('<' :: 's' :: (junk ++ '>' :: txt)) =
      .ok [⟨none, none, none, none, none, txt⟩] := by
  have hupd : styleUpdOf ('s' :: junk) = (some none, none, none) := by
    have hsplit : splitOnChar ',' ('s' :: junk) = [('s' :: junk)] :=
      splitOnChar_single (by
        intro hm
        rcases List.mem_cons.mp hm with he | hm2
        · cases he
        · exact h3 hm2)
    simp [styleUpdOf, hsplit, h1, h4]
  have hbody : parseOptionalParam ('<' :: (('s' :: junk) ++ '>' :: txt)) =
      .ok (txt, (some none, none, none)) := by
    rw [@parseOptionalParam_body ('s' :: junk) txt rfl (by simpa using h1) (by
      intro hm
      rcases List.mem_cons.mp hm with he | hm2
      · cases he
      · exact h2 hm2), hupd]
  have hact : parseAction ('<' :: (('s' :: junk) ++ '>' :: txt)) =
      .ok (txt, .UpdateStyle (some none, none, none)) := by
    rw [parseAction, hbody]
  have hlen : txt.length ≠ ('<' :: (('s' :: junk) ++ '>' :: txt)).length := by
    simp
    omega
  rw [parseMarkup]
  rw [show ('<' :: 's' :: (junk ++ '>' :: txt)) = ('<' :: (('s' :: junk) ++ '>' :: txt)) from rfl]
  rw [foldAux, hact]
  dsimp only
  rw [if_neg hlen]
  have hfuel : 2 ≤ ('<' :: (('s' :: junk) ++ '>' :: txt)).length := by
    simp
  rw [show foldStep ([], styleDefault) (.UpdateStyle (some none, none, none)) =
      ([], styleDefault) from rfl]
  rw [foldAux_noTrig [] styleDefault h5 h6 h7 hfuel]
  simp [styleDefault]

/-- Witness for C6 on the concrete input `<sX>t`. -/
theorem c6_malformed_size_recovered_witness :
    (['X'] : Str) ≠ [] ∧ '>' ∉ (['X'] : Str) ∧ ',' ∉ (['X'] : Str) ∧
      parseF32 ['X'] = none ∧ (['t'] : Str) ≠ [] ∧
      findSub styleTrigger ['t'] = none ∧ findSub colorTrigger ['t'] = none ∧
      parseMarkup ['<', 's', 'X', '>', 't'] =
        .ok [⟨none, none, none, none, none, ['t']⟩] :=
  ⟨by decide, by decide, by decide, by decide, by decide, by decide, by decide,
    c6_malformed_size_recovered ['X'] ['t'] (by decide) (by decide) (by decide)
      (by decide) (by decide) (by decide) (by decide)⟩

/-- C9: for any tag whose body begins with `s` and is longer than one
character (e.g. `<strong>`), the parameterized style matcher consumes the
whole tag even when the body is not of the documented form; the characters
after the leading `s` of the first comma-part are float-parsed, and when
that parse fails the accumulated size is set to None (an explicit reset),
not left unchanged. -/
theorem c9_style_matcher_consumes_nonstyle_body (b2 : Char) (bs tail : Str)
    (st : Style) (h1 : '>' ∉ ('s' :: b2 :: bs)) :
    parseOptionalParam ('<' :: (('s' :: b2 :: bs) ++ '>' :: tail)) =
        .ok (tail, styleUpdOf ('s' :: b2 :: bs)) ∧
      (styleUpdOf ('s' :: b2 :: bs)).1 =
        some (parseF32 (((splitOnChar ',' ('s' :: b2 :: bs)).headD []).drop 1)) ∧
      (parseF32 (((splitOnChar ',' ('s' :: b2 :: bs)).headD []).drop 1) = none →
        (applyAction st (.UpdateStyle (styleUpdOf ('s' :: b2 :: bs)))).size = none) := by
  have hsz : (styleUpdOf ('s' :: b2 :: bs)).1 =
      some (parseF32 (((splitOnChar ',' ('s' :: b2 :: bs)).headD []).drop 1)) := by
    rw [styleUpdOf, splitOnChar]
    by_cases hc : ('s' : Char) = ','
    · cases hc
    · rw [if_neg hc]
      cases hsp : splitOnChar ',' (b2 :: bs) with
      | nil => exact absurd hsp splitOnChar_ne_nil
      | cons a l => simp
  refine ⟨?_, hsz, ?_⟩
  · exact @parseOptionalParam_body ('s' :: b2 :: bs) tail rfl (by simp) h1
  · intro hfail
    rw [hfail] at hsz
    rcases hu : styleUpdOf ('s' :: b2 :: bs) with ⟨sz, f, fl⟩
    rw [hu] at hsz
    simp only at hsz
    subst hsz
    cases f <;> rcases fl with _ | (_ | ⟨bb, ii⟩) <;> simp [applyAction]

/-- Witness for C9 on the concrete tag `<strong>` with prior size 50. -/
theorem c9_style_matcher_consumes_nonstyle_body_witness :
    '>' ∉ ('s' :: 't' :: (['r', 'o', 'n', 'g'] : Str)) ∧
      (parseOptionalParam
          ('<' :: (('s' :: 't' :: ['r', 'o', 'n', 'g']) ++ '>' :: ([] : Str))) =
          .ok (([] : Str), styleUpdOf ('s' :: 't' :: ['r', 'o', 'n', 'g'])) ∧
        (styleUpdOf ('s' :: 't' :: ['r', 'o', 'n', 'g'])).1 =
          some (parseF32
            (((splitOnChar ',' ('s' :: 't' :: ['r', 'o', 'n', 'g'])).headD []).drop 1)) ∧
        (parseF32
            (((splitOnChar ',' ('s' :: 't' :: ['r', 'o', 'n', 'g'])).headD []).drop 1) =
              none →
          (applyAction ⟨some 50, none, none, none, none⟩
            (.UpdateStyle (styleUpdOf ('s' :: 't' :: ['r', 'o', 'n', 'g'])))).size =
            none)) :=
  ⟨by decide,
    c9_style_matcher_consumes_nonstyle_body 't' ['r', 'o', 'n', 'g'] []
      ⟨some 50, none, none, none, none⟩ (by decide)⟩

/-- Witness for C8 at `W = 3`, `H = 4` on the single-run block `AB`. -/
theorem c8_anchor_offsets_witness :
    elAB.text = 'A' :: ['B'] ∧ elAB.text ≠ newlineEsc ∧
      (hAnchorOffset .Left 3 = 0 ∧ hAnchorOffset .Mid 3 = 3 * (1 / 2) ∧
        hAnchorOffset .Right 3 = 3 ∧ vAnchorOffset .Top 4 = 0 ∧
        vAnchorOffset .Center 4 = 4 * (1 / 2) ∧ vAnchorOffset .Bottom 4 = 4 ∧
        (splitText blockLT (elAB :: []) 0).head?.map (fun pl => (pl.x, pl.y)) =
          some (penOrigin blockLT (measurePass blockLT (elAB :: [])).w
            (measurePass blockLT (elAB :: [])).h)) :=
  ⟨rfl, by decide, c8_anchor_offsets 3 4 blockLT elAB [] 0 'A' ['B'] rfl (by decide)⟩

end TextSplit
